import Mathlib

/-!
Shallow embedding of the libsql WAL core: the segment log (log.rs), the
per-namespace coordinator (shared_wal.rs) and the transaction state
(transaction.rs). Machine integers (u32/u64) are modelled as Nat; the claims
below never exercise wrap-around, and where a cast truncates in the source the
model applies the corresponding mod explicitly. File I/O is modelled by
explicit state (association lists from offsets to records) plus a fuel
parameter: each fallible write consumes one unit of fuel and fails when the
fuel is exhausted, so an arbitrary I/O failure point is a choice of fuel.
-/

namespace LibsqlWal

/-- Lookup in an association list keyed by Nat (model of map lookup). -/
def assocLookup {α : Type} (k : Nat) : List (Nat × α) → Option α
  | [] => none
  | (k2, v) :: rest => if k = k2 then some v else assocLookup k rest

/-- Ordered insert-or-replace into an association list sorted by key
(model of BTreeMap insert / file write at an offset). -/
def assocInsertSorted {α : Type} (k : Nat) (v : α) : List (Nat × α) → List (Nat × α)
  | [] => [(k, v)]
  | (k2, v2) :: rest =>
    if k < k2 then (k, v) :: (k2, v2) :: rest
    else if k = k2 then (k, v) :: rest
    else (k2, v2) :: assocInsertSorted k v rest

/-- Big-endian encoding of a u64 as 8 bytes, as written at the tail of each
page image (log.rs stores the frame number this way). -/
def be_bytes (n : Nat) : List Nat :=
  [n / 2 ^ 56 % 256, n / 2 ^ 48 % 256, n / 2 ^ 40 % 256, n / 2 ^ 32 % 256,
   n / 2 ^ 24 % 256, n / 2 ^ 16 % 256, n / 2 ^ 8 % 256, n % 256]

/-- Big-endian decoding of a byte list (shared_wal.rs: u64 from_be_bytes of
the final 8 bytes of the buffer). -/
def decode_be (bs : List Nat) : Nat :=
  bs.foldl (fun acc b => acc * 256 + b) 0

/-- u64 MAX, the initial prev_seg value in SharedWal read_from_segments. -/
def U64MAX : Nat := 2 ^ 64 - 1

/-- LogHeader (log.rs): the segment header record. -/
structure LogHeader where
  start_frame_no : Nat
  last_commited_frame_no : Nat
  db_size : Nat
  index_offset : Nat
  index_size : Nat
deriving Repr, DecidableEq, Inhabited

/-- LogHeader is_empty (log.rs). -/
def LogHeader.is_empty (h : LogHeader) : Bool :=
  h.last_commited_frame_no == 0

/-- LogHeader count_committed (log.rs): checked_sub with unwrap_or 0 is Nat
truncated subtraction. -/
def LogHeader.count_committed (h : LogHeader) : Nat :=
  h.last_commited_frame_no - (h.start_frame_no - 1)

/-- LogHeader last_committed (log.rs): on an empty segment this is the last
frame committed in the previous segment, start_frame_no - 1. -/
def LogHeader.last_committed (h : LogHeader) : Nat :=
  if h.is_empty then h.start_frame_no - 1 else h.last_commited_frame_no

/-- LogHeader next_frame_no (log.rs). -/
def LogHeader.next_frame_no (h : LogHeader) : Nat :=
  if h.is_empty then h.start_frame_no else h.last_commited_frame_no + 1

/-- index_entry_split (log.rs): split an index entry value into
(frame_no, offset); the offset is the low 32 bits, the frame_no the high
32 bits. -/
def index_entry_split (k : Nat) : Nat × Nat :=
  (k / 2 ^ 32 % 2 ^ 32, k % 2 ^ 32)

/-- A frame as stored in the segment file (log.rs Frame): an 8-byte header
(page_no, size_after) followed by the 4096-byte page image whose final 8
bytes are the big-endian frame number. data holds the first 4088 bytes of
the page image. -/
structure Frame where
  page_no : Nat
  size_after : Nat
  data : List Nat
  frame_no : Nat
deriving Repr, DecidableEq, Inhabited

/-- The 4096-byte page image of a frame as read back from the file: the page
data with the trailing 8 bytes overwritten by the big-endian frame number. -/
def Frame.pageBytes (f : Frame) : List Nat :=
  f.data ++ be_bytes f.frame_no

/-- size_of LogHeader in the source layout (two u64, one u32, two u64,
byte-aligned zerocopy types). -/
def LOGHEADERSIZE : Nat := 36

/-- size_of Frame: 8-byte frame header plus 4096-byte page. -/
def FRAMESIZE : Nat := 4104

/-- byte_offset (log.rs): file offset of the frame slot at a given index. -/
def byte_offset (offset : Nat) : Nat :=
  LOGHEADERSIZE + offset * FRAMESIZE

/-- page_offset (log.rs): file offset of the page image inside a frame slot. -/
def page_offset (offset : Nat) : Nat :=
  byte_offset offset + 8

/-- LogIndex (log.rs): the live segment's in-memory page map, a BTreeMap from
page number to the list of slot offsets of frames writing that page, plus a
start_frame_no used to turn stored offsets into frame numbers. -/
structure LogIndex where
  start_frame_no : Nat
  index : List (Nat × List Nat)
deriving Repr, DecidableEq, Inhabited

/-- LogIndex locate (log.rs): greatest recorded slot for the page whose frame
number (start_frame_no + offset) is within the snapshot. -/
def LogIndex.locate (li : LogIndex) (page_no max_frame_no : Nat) : Option Nat :=
  match assocLookup page_no li.index with
  | none => none
  | some offsets =>
    offsets.reverse.find? (fun fno => decide (li.start_frame_no + fno ≤ max_frame_no))

/-- LogIndex merge_all (log.rs): serialize the in-memory page map into the
on-disk index, one entry per page holding the last recorded offset as the
u64 value; returns none when some page has an empty offset list (the
source unwraps there). -/
def LogIndex.merge_all (li : LogIndex) : Option (List (Nat × Nat)) :=
  li.index.mapM (fun kv => kv.2.getLast?.map (fun off => (kv.1, off)))

/-- The live segment state (log.rs Log): the in-memory page map, the
in-memory header (behind the mutex; the one readers consult), the frame
area of the segment file, the header record as stored in the file, the
read-lock count, and the sealed flag. -/
structure Log where
  index : LogIndex
  header : LogHeader
  frames : List (Nat × Frame)
  fileHeader : LogHeader
  read_locks : Nat
  sealed : Bool
deriving Repr, DecidableEq, Inhabited

/-- Log create (log.rs): a fresh segment file with an empty default index
(note the default LogIndex has start_frame_no zero, as in the source). -/
def Log.createModel (start_frame_no db_size : Nat) : Log :=
  let header : LogHeader :=
    { start_frame_no := start_frame_no, last_commited_frame_no := 0,
      db_size := db_size, index_offset := 0, index_size := 0 }
  { index := { start_frame_no := 0, index := [] }, header := header,
    frames := [], fileHeader := header, read_locks := 0, sealed := false }

/-- Log begin_read_infos (log.rs): the snapshot a reader takes. -/
def Log.begin_read_infos (log : Log) : Nat × Nat :=
  (log.header.last_committed, log.header.db_size)

/-- Log last_committed (log.rs). -/
def Log.last_committed (log : Log) : Nat :=
  log.header.last_committed

/-- Log count_committed (log.rs). -/
def Log.count_committed (log : Log) : Nat :=
  log.header.count_committed

/-- Modelled from the spec: Log frames_in_log is called by SharedWal upgrade
(shared_wal.rs) but is not defined in the sources under src; per the spec the
write transaction starts appending at the slot just past the frames already
in the log, which is the number of committed frames. -/
def Log.frames_in_log (log : Log) : Nat :=
  log.header.count_committed

/-- Log read_page_offset (log.rs): read the 4096-byte page image stored in
the frame slot at the given offset; none models a read error (no frame ever
written there). -/
def Log.read_page_offset (log : Log) (offset : Nat) : Option (List Nat) :=
  (assocLookup offset log.frames).map Frame.pageBytes

/-- ReadTransaction (transaction.rs): the snapshot bounds a reader carries.
The pinned log handle is passed separately where needed. -/
structure ReadTx where
  max_frame_no : Nat
  db_size : Nat
deriving Repr, DecidableEq, Inhabited

/-- Savepoint (transaction.rs / log.rs live form): pending writes of one
savepoint; index maps a page number to the slot offset of the frame this
transaction wrote for it. -/
structure Savepoint where
  next_offset : Nat
  next_frame_no : Nat
  index : List (Nat × Nat)
deriving Repr, DecidableEq, Inhabited

/-- WriteTransaction (transaction.rs): a read snapshot extended with the
writer id, the savepoint stack (oldest first, last entry current), the
running next_frame_no and next_offset, and the commit flag. -/
structure WriteTx where
  id : Nat
  savepoints : List Savepoint
  next_frame_no : Nat
  next_offset : Nat
  is_commited : Bool
  read_tx : ReadTx
deriving Repr, DecidableEq, Inhabited

/-- Transaction (transaction.rs). -/
inductive Tx
  | read (tx : ReadTx)
  | write (tx : WriteTx)
deriving Repr, DecidableEq, Inhabited

/-- Deref of Transaction to its read part: the snapshot upper bound. -/
def Tx.max_frame_no : Tx → Nat
  | .read tx => tx.max_frame_no
  | .write tx => tx.read_tx.max_frame_no

/-- WriteTransaction find_frame (transaction.rs): search the savepoint stack
newest first for a pending write of the page; no snapshot filtering is
applied on this path. -/
def WriteTx.find_frame_offset (tx : WriteTx) (page_no : Nat) : Option Nat :=
  tx.savepoints.reverse.findSome? (fun s => assocLookup page_no s.index)

/-- Log find_frame (log.rs): a write transaction first consults its own
savepoint indices; otherwise (or on miss) the in-memory page map is
consulted under the snapshot bound. -/
def Log.find_frame (log : Log) (page_no : Nat) (tx : Tx) : Option Nat :=
  match (match tx with
         | .write wtx => wtx.find_frame_offset page_no
         | .read _ => none) with
  | some offset => some offset
  | none => log.index.locate page_no tx.max_frame_no

/-- SealedLog (log.rs): an immutable, indexed segment; index is the
serialized page map (page number to u64 value), frames the frame area of
its file. -/
structure SealedLog where
  header : LogHeader
  index : List (Nat × Nat)
  frames : List (Nat × Frame)
  read_locks : Nat
deriving Repr, DecidableEq, Inhabited

/-- SealedLog read_offset (log.rs): the page image stored in the frame slot
at the given offset. -/
def SealedLog.read_offset (s : SealedLog) (offset : Nat) : Option (List Nat) :=
  (assocLookup offset s.frames).map Frame.pageBytes

/-- SealedLog read_page (log.rs): skip the segment entirely when it
post-dates the reader, otherwise look the page up in the immutable index
and read the frame slot; some buf is a hit. -/
def SealedLog.read_page (s : SealedLog) (page_no max_frame_no : Nat) : Option (List Nat) :=
  if s.header.last_commited_frame_no > max_frame_no then none
  else
    match assocLookup page_no s.index with
    | some value => s.read_offset (index_entry_split value).2
    | none => none

/-- SharedWal read_from_segments (shared_wal.rs): walk the sealed queue
newest first (the argument here is already the reversed queue), checking the
strict ordering assertion on last_commited_frame_no against the previous
segment; the outer none models that assertion firing. -/
def read_from_segments_go (page_no max_frame_no : Nat) :
    List SealedLog → Nat → Option (Option (List Nat))
  | [], _ => some none
  | s :: rest, prev =>
    if s.header.last_commited_frame_no < prev then
      match s.read_page page_no max_frame_no with
      | some buf => some (some buf)
      | none => read_from_segments_go page_no max_frame_no rest s.header.last_commited_frame_no
    else none

/-- SharedWal read_frame (shared_wal.rs): the transaction's log first, then
the sealed segments newest to oldest, then fallthrough to the base database
file at byte offset (page_no - 1) * 4096. dbFile maps a byte offset to the
4096-byte buffer read there. none models a panic (failed read or the
segment-order assertion). -/
def read_frame (log : Log) (segs : List SealedLog) (dbFile : Nat → List Nat)
    (tx : Tx) (page_no : Nat) : Option (List Nat) :=
  match log.find_frame page_no tx with
  | some offset => log.read_page_offset offset
  | none =>
    match read_from_segments_go page_no tx.max_frame_no segs.reverse U64MAX with
    | none => none
    | some (some buf) => some buf
    | some none => some (dbFile ((page_no - 1) * 4096))

/-- The assertion at the end of SharedWal read_frame (shared_wal.rs): the
final 8 bytes of the buffer, decoded big-endian, must not exceed the
transaction's snapshot. -/
def read_frame_assertion (tx : Tx) (buf : List Nat) : Bool :=
  decide (decode_be (buf.drop (4096 - 8)) ≤ tx.max_frame_no)

/-- One iteration of the SharedWal begin_read loop (shared_wal.rs): load the
current segment, increment its read-lock count, then re-check sealed; none
means the loop continues (the segment rotated under us). The returned Log is
the segment state after this attempt. -/
def begin_read_step (current : Log) : Log × Option ReadTx :=
  let current1 := { current with read_locks := current.read_locks + 1 }
  if current1.sealed then (current1, none)
  else
    (current1,
     some { max_frame_no := current1.begin_read_infos.1,
            db_size := current1.begin_read_infos.2 })

/-- Outcome of one upgrade attempt (shared_wal.rs): park behind the current
writer, fail with BusySnapshot, or claim the lock and build the write
transaction. The Option Nat carries the writer-lock slot after the attempt,
the Nat the next_tx_id counter. -/
inductive UpgradeStep
  | parked (lock : Option Nat) (next_tx_id : Nat) (waiters : List Nat)
  | busySnapshot (lock : Option Nat) (next_tx_id : Nat)
  | upgraded (lock : Option Nat) (next_tx_id : Nat) (wtx : WriteTx)
deriving Repr, DecidableEq

/-- SharedWal upgrade, one loop iteration (shared_wal.rs): with the writer
lock mutex held, either enqueue to the waiter queue and park (lock taken by
someone), or draw a transaction id, re-read the current segment's last
committed frame number, fail with BusySnapshot on a stale snapshot before
the lock slot is written, and otherwise claim the lock and build the write
transaction with its single initial savepoint. -/
def upgrade (lock : Option Nat) (next_tx_id : Nat) (waiters : List Nat)
    (conn : Nat) (current : Log) (read_tx : ReadTx) : UpgradeStep :=
  match lock with
  | some _ => .parked lock next_tx_id (waiters ++ [conn])
  | none =>
    let id := next_tx_id
    let last_commited := current.last_committed
    if read_tx.max_frame_no ≠ last_commited then
      .busySnapshot none (next_tx_id + 1)
    else
      let next_offset := current.frames_in_log
      .upgraded (some id) (next_tx_id + 1)
        { id := id,
          savepoints := [{ next_offset := next_offset,
                           next_frame_no := last_commited + 1, index := [] }],
          next_frame_no := last_commited + 1,
          next_offset := next_offset,
          is_commited := false,
          read_tx := read_tx }

/-- The writer-lock state (the WalLock referenced by transaction.rs): the
lock slot, the fair-handoff reservation slot, and the FIFO waiter queue of
connection ids (push at the back, steal from the front). -/
structure WalLock where
  tx_id : Option Nat
  reserved : Option Nat
  waiters : List Nat
deriving Repr, DecidableEq, Inhabited

/-- The lock handling of SharedWal upgrade (shared_wal.rs), isolated: when
the slot is taken, enqueue and park; when it is free, claim it with the
given transaction id. The Bool reports whether the lock was acquired. Note
the source consults only tx_id here, never the reserved slot. -/
def upgradeAcquire (conn id : Nat) (l : WalLock) : WalLock × Bool :=
  match l.tx_id with
  | some _ => ({ l with waiters := l.waiters ++ [conn] }, false)
  | none => ({ l with tx_id := some id }, true)

/-- WriteTransaction downgrade, lock release part (transaction.rs): drop the
lock only if still held, then, unless a reservation already exists, steal
one waiter from the front of the queue, record it in reserved and wake it.
The returned Option Nat is the woken connection, if any. -/
def downgradeRelease (id : Nat) (l : WalLock) : WalLock × Option Nat :=
  let l1 :=
    match l.tx_id with
    | some lock_id => if lock_id = id then { l with tx_id := none } else l
    | none => l
  match l1.reserved with
  | some _ => (l1, none)
  | none =>
    match l1.waiters with
    | [] => (l1, none)
    | w :: rest => ({ l1 with reserved := some w, waiters := rest }, some w)

/-- Modelled from the spec: merge_savepoints is imported by log.rs from
transaction.rs but its definition is not in the sources under src; per the
spec the per-savepoint page indices are merged newest-wins on page-number
collision into the segment's in-memory page map. The savepoint list argument
is newest first (the call site passes the reversed stack); for each winning
(page, offset) pair the offset is appended to that page's offset list. -/
def firstWins : List (Nat × Nat) → List (Nat × Nat)
  | [] => []
  | (k, v) :: rest => (k, v) :: firstWins (rest.filter (fun kv => kv.1 != k))
termination_by l => l.length
decreasing_by
  simp only [List.length_cons]
  exact Nat.lt_succ_of_le (List.length_filter_le _ _)

/-- Append one offset to a page's offset list in the sorted page map. -/
def indexAppendOffset (page off : Nat) : List (Nat × List Nat) → List (Nat × List Nat)
  | [] => [(page, [off])]
  | (k, offs) :: rest =>
    if page < k then (page, [off]) :: (k, offs) :: rest
    else if page = k then (k, offs ++ [off]) :: rest
    else (k, offs) :: indexAppendOffset page off rest

/-- Modelled from the spec: see firstWins. -/
def merge_savepoints (sps : List (List (Nat × Nat))) (index : List (Nat × List Nat)) :
    List (Nat × List Nat) :=
  (firstWins sps.flatten).foldl (fun ix kv => indexAppendOffset kv.1 kv.2 ix) index

/-- Events emitted by the insert_pages model, in program order: a frame
write to the segment file, the header write to the file, the merge of the
savepoint indices into the in-memory page map, the publication of the
in-memory header (the one readers consult), and the marking of the
transaction as committed. -/
inductive Ev
  | frameWrite (offset : Nat)
  | headerFileWrite
  | mergeIndex
  | publishHeader
  | markCommitted
deriving Repr, DecidableEq

/-- Outcome of an insert_pages or seal call: normal return, an I/O error
propagated with the question-mark operator, or a panic (failed assert,
todo, expect or unwrap). -/
inductive InsertOutcome
  | ok
  | ioError
  | panicked
deriving Repr, DecidableEq

/-- State threaded through insert_pages: the segment, the write
transaction, the remaining I/O fuel and the event trace so far. -/
structure InsertSt where
  log : Log
  tx : WriteTx
  fuel : Nat
  trace : List Ev
deriving Repr, DecidableEq

/-- Apply a function to the last savepoint of the stack (the source's
savepoints.last_mut). -/
def modifyLast (f : Savepoint → Savepoint) : List Savepoint → List Savepoint
  | [] => []
  | [s] => [f s]
  | s :: rest => s :: modifyLast f rest

/-- The size_after stamped on a frame: the commit size on the last frame of
a commit batch, zero otherwise (log.rs insert_pages). -/
def commitSizeAfter (size_after : Option Nat) (isLast : Bool) : Nat :=
  match size_after with
  | some size => if isLast then size else 0
  | none => 0

/-- The transaction after the counter bumps of one loop iteration of
insert_pages: next_frame_no and next_offset each advance by one (this
happens before the fallible frame write in the source). -/
def bumpTx (tx : WriteTx) : WriteTx :=
  { tx with next_frame_no := tx.next_frame_no + 1, next_offset := tx.next_offset + 1 }

/-- One successful loop iteration of insert_pages: the frame is written to
the slot at tx.next_offset with frame number tx.next_frame_no, and the page
is recorded in the current (last) savepoint's index. n is the remaining
fuel. -/
def insertFrame (page_no : Nat) (page : List Nat) (sa n : Nat) (st : InsertSt) : InsertSt :=
  let frame_no := st.tx.next_frame_no
  let offset := st.tx.next_offset
  let fr : Frame :=
    { page_no := page_no, size_after := sa,
      data := page.take (4096 - 8), frame_no := frame_no }
  let sps :=
    modifyLast (fun s => { s with index := assocInsertSorted page_no offset s.index })
      (bumpTx st.tx).savepoints
  { log := { st.log with frames := assocInsertSorted offset fr st.log.frames },
    tx := { bumpTx st.tx with savepoints := sps },
    fuel := n, trace := st.trace ++ [.frameWrite offset] }

/-- The frame-append loop of Log insert_pages (log.rs): for each page,
stamp size_after on the last frame of a commit batch only, assign the next
frame number and slot, bump both counters, write the frame (fallible), and
record the page in the current savepoint's index. On an I/O failure the
counters were already bumped but the savepoint index was not. -/
def insertLoop : List (Nat × List Nat) → Option Nat → InsertSt → InsertOutcome × InsertSt
  | [], _, st => (.ok, st)
  | (page_no, page) :: rest, size_after, st =>
    match st.fuel with
    | 0 => (.ioError, { st with tx := bumpTx st.tx })
    | n + 1 =>
      insertLoop rest size_after
        (insertFrame page_no page (commitSizeAfter size_after rest.isEmpty) n st)

/-- Mark the transaction committed (the unconditional tail of the commit
branch of insert_pages). -/
def markCommitted (st : InsertSt) : InsertSt :=
  { st with tx := { st.tx with is_commited := true },
            trace := st.trace ++ [.markCommitted] }

/-- The commit section of Log insert_pages (log.rs): when size_after is
present and some savepoint buffered writes, build the new header, write it
to the file (fallible), merge the savepoint indices into the in-memory page
map, and only then publish the in-memory header; finally mark the
transaction committed. -/
def commitPhase (size_after : Option Nat) (st : InsertSt) : InsertOutcome × InsertSt :=
  match size_after with
  | none => (.ok, st)
  | some size =>
    match st.tx.savepoints.getLast? with
    | none => (.panicked, st)
    | some lastSp =>
      if st.tx.savepoints.length = 1 ∧ lastSp.index.isEmpty = true then
        (.ok, markCommitted st)
      else if st.tx.savepoints.any (fun s => !s.index.isEmpty) then
        match st.fuel with
        | 0 => (.ioError, st)
        | fuel + 1 =>
          let last_frame_no := st.tx.next_frame_no - 1
          let header :=
            { st.log.header with last_commited_frame_no := last_frame_no, db_size := size }
          let log1 := { st.log with fileHeader := header }
          let mergedIx :=
            merge_savepoints (st.tx.savepoints.reverse.map (fun s => s.index))
              st.log.index.index
          let log2 := { log1 with index := { log1.index with index := mergedIx } }
          let log3 := { log2 with header := header }
          (.ok, markCommitted
            { st with log := log3, fuel := fuel,
                      trace := st.trace ++ [.headerFileWrite, .mergeIndex, .publishHeader] })
      else (.ok, markCommitted st)

/-- Log insert_pages (log.rs): assert the segment is not sealed, enter the
lock critical section (panics when the transaction is already committed or
the lock is not held), require an initialized savepoint stack, run the
frame-append loop, then the commit section. lockHolder is the writer-lock
slot content at the time of the call. -/
def Log.insert_pages (log : Log) (pages : List (Nat × List Nat)) (size_after : Option Nat)
    (tx : WriteTx) (lockHolder : Option Nat) (fuel : Nat) : InsertOutcome × InsertSt :=
  let st0 : InsertSt := { log := log, tx := tx, fuel := fuel, trace := [] }
  if log.sealed then (.panicked, st0)
  else if tx.is_commited then (.panicked, st0)
  else if lockHolder ≠ some tx.id then (.panicked, st0)
  else if tx.savepoints.isEmpty then (.panicked, st0)
  else
    let r := insertLoop pages size_after st0
    if r.1 = .ok then commitPhase size_after r.2 else r

/-- Log seal (log.rs): compare-and-swap the sealed flag from false to true
(panics when already sealed), serialize the in-memory page map as the index
blob (fallible), then update index_offset and index_size in the header and
rewrite it. Returns the outcome, the segment state after the call and the
resulting sealed form on success. -/
def Log.seal (log : Log) (fuel : Nat) : InsertOutcome × Log × Option SealedLog :=
  if log.sealed then (.panicked, log, none)
  else
    let log1 := { log with sealed := true }
    match log1.index.merge_all with
    | none => (.panicked, log1, none)
    | some blob =>
      match fuel with
      | 0 => (.ioError, log1, none)
      | _ + 1 =>
        let index_byte_offset := byte_offset log1.header.count_committed
        let header :=
          { log1.header with index_offset := index_byte_offset, index_size := blob.length }
        let log2 := { log1 with header := header, fileHeader := header }
        (.ok, log2,
         some { header := header, index := blob,
                frames := log2.frames, read_locks := log2.read_locks })

/-- The distinct page numbers appearing in a group of serialized segment
indices (model of the fst union key stream; emission order is first
appearance, which is immaterial to the claims below). -/
def unionKeys (indexes : List (List (Nat × Nat))) : List Nat :=
  (indexes.flatMap (fun ix => ix.map Prod.fst)).dedup

/-- Model of the per-key value list of the fst union in SharedWal checkpoint
(shared_wal.rs): for one page number, the (segment, value) pairs of every
selected segment containing it, in queue order. Pairing each value with its
segment collapses the source's v.index into the queue, so the source's
max_by_key over v.index followed by indexing the queue is getLast? here. -/
def collectSegs (p : Nat) : List SealedLog → List (SealedLog × Nat)
  | [] => []
  | s :: rest =>
    match assocLookup p s.index with
    | some v => (s, v) :: collectSegs p rest
    | none => collectSegs p rest

/-- One write of the checkpoint union loop (shared_wal.rs): for a page
number in the union, take the per-key value list of the union, pick the
entry with the greatest queue position (the last collected one, the source's
max_by_key over the map index), read that page image from its segment and
pair it with the base-file byte offset (page_no - 1) * 4096. none models the
unwrap panic on a failed read (or an impossible empty value list). -/
def checkpointWrite (pfx : List SealedLog) (p : Nat) : Option (Nat × List Nat) :=
  match (collectSegs p pfx).getLast? with
  | none => none
  | some sv =>
    match sv.1.read_offset (index_entry_split sv.2).2 with
    | none => none
    | some buf => some ((p - 1) * 4096, buf)

/-- Result of SharedWal checkpoint: the (byte offset, page image) writes
performed on the base database file in emission order, the sealed queue
after the call, and whether the base file was fsynced. -/
structure CheckpointRes where
  writes : List (Nat × List Nat)
  segs : List SealedLog
  fsynced : Bool
deriving Repr, DecidableEq

/-- SharedWal checkpoint (shared_wal.rs): select the front run of the sealed
queue whose read-lock counts are zero; if empty, return immediately.
Otherwise stream the union of the indices: for each page number take the
entry of the segment with the greatest queue position, read that page image
and write it to the base file at (page_no - 1) * 4096; then fsync and drain
the consumed segments from the front of the queue. none models a panic
(unwrap of a failed read). -/
def checkpoint (segs : List SealedLog) : Option CheckpointRes :=
  let pfx := segs.takeWhile (fun s => s.read_locks == 0)
  if pfx.isEmpty then some { writes := [], segs := segs, fsynced := false }
  else
    ((unionKeys (pfx.map (fun s => s.index))).mapM (fun p => checkpointWrite pfx p)).map
      (fun ws => { writes := ws, segs := segs.drop pfx.length, fsynced := true })

/-- From the spec's words (checkpointer step 2): the newest segment of the
selected run that contains the page, ties broken toward the higher queue
index; scanning the run newest first and taking the first hit realizes
exactly that. -/
def newestContaining (pfx : List SealedLog) (p : Nat) : Option SealedLog :=
  pfx.reverse.find? (fun s => (assocLookup p s.index).isSome)

/-- From the spec's words (checkpointer steps 2 and 3): the page image the
checkpoint must write for a page, read from the newest segment of the run
containing it. -/
def specImage (pfx : List SealedLog) (p : Nat) : List Nat :=
  match newestContaining pfx p with
  | none => []
  | some seg =>
    match assocLookup p seg.index with
    | none => []
    | some v => (seg.read_offset (index_entry_split v).2).getD []

/-- From the spec's words (segment index format): the value stored for a
page must be frame_no_delta shifted left 32 bits, or-ed with the slot
offset, where frame_no_delta identifies the highest-numbered frame of the
segment writing that page (its frame number minus the segment's
start_frame_no) and offset is that frame's slot offset. Computed here from
the frame area of the segment. -/
def specIndexValue (start_frame_no : Nat) (frames : List (Nat × Frame)) (p : Nat) : Option Nat :=
  let writing := frames.filter (fun of => of.2.page_no == p)
  match writing.argmax (fun of => of.2.frame_no) with
  | none => none
  | some of => some ((of.2.frame_no - start_frame_no) * 2 ^ 32 + of.1)

/-- From the spec's words (checkpointer steps 2 and 3): the full list of
base-file writes a checkpoint of the selected run must perform: for every
page number in the union of the run's indices, the image from the newest
segment containing it, at byte offset (page_no - 1) * 4096. -/
def specWrites (pfx : List SealedLog) : List (Nat × List Nat) :=
  (unionKeys (pfx.map (fun s => s.index))).map
    (fun p => ((p - 1) * 4096, specImage pfx p))

/-! Concrete states used by witnesses and counterexamples. -/

/-- An all-zero 4096-byte page image. -/
def zeroPage : List Nat := List.replicate 4096 0

/-- A fresh first segment: start_frame_no 1, empty, db_size 0. -/
def freshLog : Log := Log.createModel 1 0

/-- The write transaction obtained by upgrading a fresh read transaction on
the fresh segment. -/
def freshWtx : WriteTx :=
  match upgrade none 0 [] 0 freshLog
      { max_frame_no := freshLog.last_committed, db_size := freshLog.header.db_size } with
  | .upgraded _ _ w => w
  | _ => default

/-- State after the fresh writer appends page 1 without committing: the page
is recorded in its savepoint index with frame number 1, while its snapshot
max_frame_no is still 0. -/
def c2St : InsertSt :=
  (Log.insert_pages freshLog [(1, zeroPage)] none freshWtx (some freshWtx.id) 1).2

/-- The frame written by that append: page 1, frame number 1, the page data
with the trailing 8 bytes replaced by the big-endian frame number. -/
def c2Frame : Frame :=
  { page_no := 1, size_after := 0, data := zeroPage.take (4096 - 8), frame_no := 1 }

/-- A current segment that has just been sealed by a rotation, with no
readers on it yet. -/
def c8Log : Log := { freshLog with sealed := true }

/-- A segment whose page 5 was written twice, at slots 0 (frame 1) and 1
(frame 2), as the in-memory page map records after two commits. -/
def c9Log : Log :=
  { index := { start_frame_no := 1, index := [(5, [0, 1])] },
    header := { start_frame_no := 1, last_commited_frame_no := 2, db_size := 5,
                index_offset := 0, index_size := 0 },
    frames := [(0, { page_no := 5, size_after := 0, data := [0], frame_no := 1 }),
               (1, { page_no := 5, size_after := 0, data := [0], frame_no := 2 })],
    fileHeader := { start_frame_no := 1, last_commited_frame_no := 2, db_size := 5,
                    index_offset := 0, index_size := 0 },
    read_locks := 0, sealed := false }

/-- The sealed form of c9Log. -/
def c9Sealed : SealedLog := ((Log.seal c9Log 1).2.2).getD default

/-- Sealed segment A of the checkpoint scenario: page 7 at slot 2, frame 3. -/
def c4SegA : SealedLog :=
  { header := { start_frame_no := 1, last_commited_frame_no := 3, db_size := 7,
                index_offset := 1, index_size := 1 },
    index := [(7, 2)],
    frames := [(2, { page_no := 7, size_after := 0, data := [1], frame_no := 3 })],
    read_locks := 0 }

/-- Sealed segment B: page 7 at slot 5 (frame 11) and page 9 at slot 6. -/
def c4SegB : SealedLog :=
  { header := { start_frame_no := 4, last_commited_frame_no := 11, db_size := 7,
                index_offset := 1, index_size := 1 },
    index := [(7, 5), (9, 6)],
    frames := [(5, { page_no := 7, size_after := 0, data := [2], frame_no := 11 }),
               (6, { page_no := 9, size_after := 0, data := [3], frame_no := 10 })],
    read_locks := 0 }

/-- Sealed segment C, still pinned by one reader. -/
def c4SegC : SealedLog := { c4SegB with read_locks := 1 }

/-- Writer-lock state while connection 1 holds the lock, before any waiter
arrives. -/
def c5L0 : WalLock := { tx_id := some 1, reserved := none, waiters := [] }

/-- Connection 2 attempts upgrade while 1 holds the lock: it enqueues. -/
def c5L1 : WalLock := (upgradeAcquire 2 2 c5L0).1

/-- Connection 1 downgrades: waiter 2 is popped, reserved and woken. -/
def c5L2 : WalLock := (downgradeRelease 1 c5L1).1

/-- Late arrival, connection 5 with transaction id 7, attempts upgrade while
the reservation for 2 is outstanding. -/
def c5L3 : WalLock × Bool := upgradeAcquire 5 7 c5L2

/-! General lemmas about the embedding, shared by several claims. -/

theorem assocLookup_mem {α : Type} {p : Nat} {v : α} :
    ∀ {l : List (Nat × α)}, assocLookup p l = some v → (p, v) ∈ l := by
  intro l
  induction l with
  | nil => intro h; simp [assocLookup] at h
  | cons kv rest ih =>
    intro h
    obtain ⟨k2, v2⟩ := kv
    simp only [assocLookup] at h
    by_cases hk : p = k2
    · simp [hk] at h
      simp [hk, h]
    · simp [hk] at h
      exact List.mem_cons_of_mem _ (ih h)

theorem assocLookup_isSome_of_mem {α : Type} {p : Nat} {v : α} :
    ∀ {l : List (Nat × α)}, (p, v) ∈ l → (assocLookup p l).isSome = true := by
  intro l
  induction l with
  | nil => intro h; simp at h
  | cons kv rest ih =>
    intro h
    obtain ⟨k2, v2⟩ := kv
    simp only [assocLookup]
    by_cases hk : p = k2
    · simp [hk]
    · simp [hk]
      rcases List.mem_cons.mp h with h1 | h1
      · exact absurd (congrArg Prod.fst h1) hk
      · exact ih h1

theorem assocInsertSorted_ne_nil {α : Type} (k : Nat) (v : α) :
    ∀ (l : List (Nat × α)), assocInsertSorted k v l ≠ [] := by
  intro l
  cases l with
  | nil => simp [assocInsertSorted]
  | cons kv rest =>
    obtain ⟨k2, v2⟩ := kv
    simp only [assocInsertSorted]
    split
    · simp
    · split <;> simp

theorem modifyLast_length (f : Savepoint → Savepoint) :
    ∀ (l : List Savepoint), (modifyLast f l).length = l.length := by
  intro l
  induction l with
  | nil => rfl
  | cons s rest ih =>
    cases rest with
    | nil => rfl
    | cons t rest2 =>
      simp only [modifyLast, List.length_cons]
      simpa using ih

theorem getLast?_cons_ne {α : Type} (a : α) (l : List α) (h : l ≠ []) :
    (a :: l).getLast? = l.getLast? := by
  cases l with
  | nil => exact absurd rfl h
  | cons b rest => rw [List.getLast?_cons_cons]

theorem modifyLast_ne_nil (f : Savepoint → Savepoint) :
    ∀ (l : List Savepoint), l ≠ [] → modifyLast f l ≠ [] := by
  intro l h
  cases l with
  | nil => exact absurd rfl h
  | cons s rest => cases rest <;> simp [modifyLast]

theorem modifyLast_getLast? (f : Savepoint → Savepoint) :
    ∀ (l : List Savepoint), (modifyLast f l).getLast? = l.getLast?.map f
  | [] => rfl
  | [_] => rfl
  | s :: t :: rest => by
    have hne : modifyLast f (t :: rest) ≠ [] :=
      modifyLast_ne_nil f (t :: rest) (by simp)
    rw [show modifyLast f (s :: t :: rest) = s :: modifyLast f (t :: rest) from rfl,
        getLast?_cons_ne _ _ hne, List.getLast?_cons_cons]
    exact modifyLast_getLast? f (t :: rest)

theorem seal_sets_sealed (log : Log) (fuel : Nat) (h : log.sealed = false) :
    (Log.seal log fuel).2.1.sealed = true := by
  unfold Log.seal
  rw [if_neg (by simp [h])]
  cases hm : ({ log with sealed := true } : Log).index.merge_all with
  | none => simp [hm]
  | some blob =>
    cases fuel with
    | zero => simp [hm]
    | succ n => simp [hm]

theorem seal_of_sealed (log : Log) (fuel : Nat) (h : log.sealed = true) :
    (Log.seal log fuel).1 = .panicked := by
  unfold Log.seal
  rw [if_pos h]

theorem insert_pages_of_sealed (log : Log) (pages : List (Nat × List Nat))
    (sa : Option Nat) (tx : WriteTx) (lockHolder : Option Nat) (fuel : Nat)
    (h : log.sealed = true) :
    (Log.insert_pages log pages sa tx lockHolder fuel).1 = .panicked ∧
    (Log.insert_pages log pages sa tx lockHolder fuel).2.log = log := by
  unfold Log.insert_pages
  rw [if_pos h]
  exact ⟨rfl, rfl⟩

/-! Claim theorems. -/

/-- C8: the spec says a begin_read attempt that finds the freshly loaded
current segment sealed decrements the read-lock count it just incremented
before retrying, leaving the count unchanged; the source's loop continues
without decrementing, so a failed attempt leaves the sealed segment's count
incremented. Evaluated at a just-sealed segment with no readers: the
attempt fails (retries) yet the count goes from 0 to 1. -/
theorem c8_begin_read_sealed_leaks_read_lock :
    (begin_read_step c8Log).2 = none ∧
    c8Log.read_locks = 0 ∧
    (begin_read_step c8Log).1.read_locks = 1 ∧
    (begin_read_step c8Log).1.read_locks ≠ c8Log.read_locks :=
  ⟨rfl, rfl, rfl, by decide⟩

/-- C10: a read transaction begun while the current segment is empty
(last_commited_frame_no = 0) takes max_frame_no = start_frame_no - 1, the
last frame committed in the previous segment, so rotating to a fresh
segment never rewinds reader snapshots (in particular the snapshot is not 0
whenever a previous segment existed). -/
theorem c10_begin_read_empty_segment (log : Log)
    (h1 : log.sealed = false) (h2 : log.header.last_commited_frame_no = 0) :
    ∃ rtx, (begin_read_step log).2 = some rtx ∧
      rtx.max_frame_no = log.header.start_frame_no - 1 ∧
      (1 < log.header.start_frame_no → rtx.max_frame_no ≠ 0) := by
  refine ⟨{ max_frame_no := log.header.start_frame_no - 1,
            db_size := log.header.db_size }, ?_, rfl, ?_⟩
  · simp [begin_read_step, h1, Log.begin_read_infos, LogHeader.last_committed,
      LogHeader.is_empty, h2]
  · intro hgt
    exact Nat.sub_ne_zero_of_lt hgt

/-- Witness for C10 at a fresh sixth segment (start_frame_no 5, empty). -/
theorem c10_witness :
    ∃ rtx, (begin_read_step (Log.createModel 5 0)).2 = some rtx ∧
      rtx.max_frame_no = (Log.createModel 5 0).header.start_frame_no - 1 ∧
      (1 < (Log.createModel 5 0).header.start_frame_no → rtx.max_frame_no ≠ 0) :=
  c10_begin_read_empty_segment (Log.createModel 5 0) rfl rfl

/-- C3: with the writer lock available (slot empty), upgrade fails with
BusySnapshot exactly when the current segment's last committed frame number
differs from the read snapshot; on failure the lock slot is still empty and
no write transaction is produced, and on success the write transaction
carries exactly one initial savepoint at (next_offset = frames_in_log,
next_frame_no = last_committed + 1). -/
theorem c3_upgrade_busy_snapshot (ntx conn : Nat) (waiters : List Nat)
    (current : Log) (rtx : ReadTx) :
    (upgrade none ntx waiters conn current rtx = .busySnapshot none (ntx + 1) ↔
        rtx.max_frame_no ≠ current.last_committed) ∧
    (rtx.max_frame_no = current.last_committed →
        upgrade none ntx waiters conn current rtx =
          .upgraded (some ntx) (ntx + 1)
            { id := ntx,
              savepoints := [{ next_offset := current.frames_in_log,
                               next_frame_no := current.last_committed + 1, index := [] }],
              next_frame_no := current.last_committed + 1,
              next_offset := current.frames_in_log,
              is_commited := false,
              read_tx := rtx }) := by
  constructor
  · constructor
    · intro h hc
      unfold upgrade at h
      simp [hc] at h
    · intro h
      unfold upgrade
      rw [if_pos (by simp [h])]
  · intro h
    unfold upgrade
    rw [if_neg (by simp [h])]

/-- Witness for C3 on the fresh segment: a stale snapshot fails with
BusySnapshot and a fresh snapshot upgrades. -/
theorem c3_witness :
    (upgrade none 0 [] 0 freshLog { max_frame_no := 3, db_size := 0 } =
        .busySnapshot none 1) ∧
    (upgrade none 0 [] 0 freshLog { max_frame_no := 0, db_size := 0 } =
        .upgraded (some 0) 1
          { id := 0,
            savepoints := [{ next_offset := freshLog.frames_in_log,
                             next_frame_no := freshLog.last_committed + 1, index := [] }],
            next_frame_no := freshLog.last_committed + 1,
            next_offset := freshLog.frames_in_log,
            is_commited := false,
            read_tx := { max_frame_no := 0, db_size := 0 } }) :=
  ⟨(c3_upgrade_busy_snapshot 0 0 [] freshLog { max_frame_no := 3, db_size := 0 }).1.mpr
      (by decide),
   (c3_upgrade_busy_snapshot 0 0 [] freshLog { max_frame_no := 0, db_size := 0 }).2
      (by decide)⟩

/-- C5 counterexample: with the reservation for waiter 2 outstanding
(recorded by the downgrade of writer 1), a late arrival, connection 5, calls
upgrade and acquires the writer lock immediately: the source's upgrade
consults only the tx_id slot and never the reserved slot, so the claim that
no connection other than the reserved one can acquire while the reservation
is outstanding is false. -/
theorem c5_counterexample :
    c5L2.tx_id = none ∧
    c5L2.reserved = some 2 ∧
    c5L3.2 = true ∧
    c5L3.1.tx_id = some 7 ∧
    c5L3.1.reserved = some 2 ∧
    (7 : Nat) ≠ 2 :=
  ⟨rfl, rfl, rfl, rfl, rfl, by decide⟩

/-- C5 as amended: on downgrade with the lock still held, no reservation and
a nonempty waiter queue, exactly one waiter, the oldest enqueued, is removed
from the queue, recorded in the reserved slot and woken; the
cannot-be-overtaken half of the original claim is dropped (upgrade never
consults reserved). -/
theorem c5_downgrade_reserves_oldest (id : Nat) (l : WalLock) (w : Nat) (rest : List Nat)
    (h1 : l.tx_id = some id) (h2 : l.reserved = none) (h3 : l.waiters = w :: rest) :
    downgradeRelease id l = ({ tx_id := none, reserved := some w, waiters := rest }, some w) := by
  obtain ⟨t, r, ws⟩ := l
  simp only at h1 h2 h3
  subst h1 h2 h3
  simp [downgradeRelease]

/-- Witness for the amended C5: writer 1 downgrades while connections 4 and
9 wait; 4 (the oldest) is reserved and woken, 9 stays queued. -/
theorem c5_downgrade_witness :
    downgradeRelease 1 { tx_id := some 1, reserved := none, waiters := [4, 9] } =
      ({ tx_id := none, reserved := some 4, waiters := [9] }, some 4) :=
  c5_downgrade_reserves_oldest 1
    { tx_id := some 1, reserved := none, waiters := [4, 9] } 4 [9] rfl rfl rfl

/-- C7: sealing an unsealed segment transitions the sealed flag to true in
every outcome (the compare-and-swap succeeds exactly once); sealing the same
segment again is an assertion failure; and any insert_pages on the sealed
segment panics on its leading assert, leaving the segment (in particular
its frame area) untouched. -/
theorem c7_seal_once_then_read_only (log : Log) (fuel fuel2 fuel3 : Nat)
    (pages : List (Nat × List Nat)) (sa : Option Nat) (tx : WriteTx)
    (lockHolder : Option Nat) (h : log.sealed = false) :
    (Log.seal log fuel).2.1.sealed = true ∧
    (Log.seal ((Log.seal log fuel).2.1) fuel2).1 = .panicked ∧
    (Log.insert_pages ((Log.seal log fuel).2.1) pages sa tx lockHolder fuel3).1 = .panicked ∧
    (Log.insert_pages ((Log.seal log fuel).2.1) pages sa tx lockHolder fuel3).2.log =
      (Log.seal log fuel).2.1 := by
  have hs := seal_sets_sealed log fuel h
  exact ⟨hs, seal_of_sealed _ fuel2 hs,
    (insert_pages_of_sealed _ pages sa tx lockHolder fuel3 hs).1,
    (insert_pages_of_sealed _ pages sa tx lockHolder fuel3 hs).2⟩

/-- Witness for C7 on the fresh unsealed segment. -/
theorem c7_witness :
    (Log.seal freshLog 1).2.1.sealed = true ∧
    (Log.seal ((Log.seal freshLog 1).2.1) 1).1 = .panicked ∧
    (Log.insert_pages ((Log.seal freshLog 1).2.1) [(1, zeroPage)] none freshWtx
        (some freshWtx.id) 5).1 = .panicked ∧
    (Log.insert_pages ((Log.seal freshLog 1).2.1) [(1, zeroPage)] none freshWtx
        (some freshWtx.id) 5).2.log = (Log.seal freshLog 1).2.1 :=
  c7_seal_once_then_read_only freshLog 1 1 5 [(1, zeroPage)] none freshWtx
    (some freshWtx.id) rfl

theorem c2_wtx : freshWtx =
    { id := 0,
      savepoints := [{ next_offset := 0, next_frame_no := 1, index := [] }],
      next_frame_no := 1, next_offset := 0, is_commited := false,
      read_tx := { max_frame_no := 0, db_size := 0 } } := by
  simp [freshWtx, upgrade, freshLog, Log.createModel, Log.last_committed,
    LogHeader.last_committed, LogHeader.is_empty, Log.frames_in_log,
    LogHeader.count_committed]

theorem c2_st : c2St =
    { log := { freshLog with frames := [(0, c2Frame)] },
      tx := { id := 0,
              savepoints := [{ next_offset := 0, next_frame_no := 1, index := [(1, 0)] }],
              next_frame_no := 2, next_offset := 1, is_commited := false,
              read_tx := { max_frame_no := 0, db_size := 0 } },
      fuel := 0, trace := [Ev.frameWrite 0] } := by
  rw [c2St, c2_wtx]
  simp [Log.insert_pages, insertLoop, insertFrame, bumpTx, commitSizeAfter,
    commitPhase, freshLog, Log.createModel, modifyLast, assocInsertSorted, c2Frame]

theorem c2_buf_len : (zeroPage.take (4096 - 8)).length = 4096 - 8 := by
  rw [zeroPage, List.length_take, List.length_replicate]
  omega

/-- C2: the read_frame assertion does fail on the write-transaction own-write
path. After the fresh writer (snapshot max_frame_no 0) appends page 1, which
is assigned frame number 1 and recorded in its savepoint index, read_frame
for page 1 hits the savepoint index and fills the buffer whose final 8 bytes
decode big-endian to 1 > 0 = tx.max_frame_no, so the assertion that the
decoded frame number never exceeds the snapshot evaluates to false: the code
violates its own assertion, against the claim that it never fails. -/
theorem c2_read_frame_assertion_fails :
    read_frame c2St.log [] (fun _ => List.replicate 4096 0) (.write c2St.tx) 1 =
      some (zeroPage.take (4096 - 8) ++ be_bytes 1) ∧
    decode_be ((zeroPage.take (4096 - 8) ++ be_bytes 1).drop (4096 - 8)) = 1 ∧
    (Tx.write c2St.tx).max_frame_no = 0 ∧
    read_frame_assertion (.write c2St.tx) (zeroPage.take (4096 - 8) ++ be_bytes 1) = false := by
  have hdrop : (zeroPage.take (4096 - 8) ++ be_bytes 1).drop (4096 - 8) = be_bytes 1 :=
    List.drop_left' c2_buf_len
  refine ⟨?_, ?_, ?_, ?_⟩
  · rw [c2_st]
    rw [show read_frame { freshLog with frames := [(0, c2Frame)] } []
        (fun _ => List.replicate 4096 0)
        (.write { id := 0,
                  savepoints := [{ next_offset := 0, next_frame_no := 1, index := [(1, 0)] }],
                  next_frame_no := 2, next_offset := 1, is_commited := false,
                  read_tx := { max_frame_no := 0, db_size := 0 } }) 1 =
      ({ freshLog with frames := [(0, c2Frame)] } : Log).read_page_offset 0 from rfl]
    simp [Log.read_page_offset, assocLookup, Frame.pageBytes, c2Frame]
  · rw [hdrop]
    rfl
  · rw [c2_st]
    rfl
  · rw [read_frame_assertion, hdrop, c2_st]
    rfl

theorem insertLoop_preserves (pages : List (Nat × List Nat)) (sa : Option Nat) :
    ∀ st : InsertSt,
      (insertLoop pages sa st).2.log.index = st.log.index ∧
      (insertLoop pages sa st).2.log.header = st.log.header ∧
      (insertLoop pages sa st).2.tx.is_commited = st.tx.is_commited := by
  induction pages with
  | nil => intro st; exact ⟨rfl, rfl, rfl⟩
  | cons pp rest ih =>
    intro st
    obtain ⟨page_no, page⟩ := pp
    simp only [insertLoop]
    split
    · exact ⟨rfl, rfl, rfl⟩
    · exact ih _

theorem insertLoop_ok (pages : List (Nat × List Nat)) (sa : Option Nat) :
    ∀ st : InsertSt, pages.length ≤ st.fuel →
      (insertLoop pages sa st).1 = .ok ∧
      (insertLoop pages sa st).2.fuel = st.fuel - pages.length ∧
      (∃ evs, (insertLoop pages sa st).2.trace = st.trace ++ evs ∧
        ∀ e ∈ evs, ∃ o, e = Ev.frameWrite o) := by
  induction pages with
  | nil =>
    intro st _
    exact ⟨rfl, rfl, ⟨[], by simp [insertLoop], by simp⟩⟩
  | cons pp rest ih =>
    intro st hf
    obtain ⟨page_no, page⟩ := pp
    simp only [insertLoop]
    split
    · next hfz =>
      rw [hfz] at hf
      simp at hf
    · next n hfs =>
      rw [hfs] at hf
      simp only [List.length_cons] at hf
      have hrest : rest.length ≤ n := by omega
      have h := ih (insertFrame page_no page (commitSizeAfter sa rest.isEmpty) n st) hrest
      refine ⟨h.1, ?_, ?_⟩
      · rw [h.2.1, hfs]
        show n - rest.length = n + 1 - (rest.length + 1)
        omega
      · obtain ⟨evs, hevs, hall⟩ := h.2.2
        refine ⟨Ev.frameWrite st.tx.next_offset :: evs, ?_, ?_⟩
        · rw [hevs]
          show st.trace ++ [Ev.frameWrite st.tx.next_offset] ++ evs = _
          simp
        · intro e he
          rcases List.mem_cons.mp he with h1 | h1
          · exact ⟨st.tx.next_offset, h1⟩
          · exact hall e h1

theorem insertLoop_savepoints_len (pages : List (Nat × List Nat)) (sa : Option Nat) :
    ∀ st : InsertSt,
      (insertLoop pages sa st).2.tx.savepoints.length = st.tx.savepoints.length := by
  induction pages with
  | nil => intro st; rfl
  | cons pp rest ih =>
    intro st
    obtain ⟨page_no, page⟩ := pp
    simp only [insertLoop]
    split
    · rfl
    · next n hfs =>
      rw [ih]
      simp [insertFrame, bumpTx, modifyLast_length]

theorem insertLoop_last_nonempty (pages : List (Nat × List Nat)) (sa : Option Nat) :
    ∀ st : InsertSt, pages ≠ [] → st.tx.savepoints ≠ [] → pages.length ≤ st.fuel →
      ∃ sp, (insertLoop pages sa st).2.tx.savepoints.getLast? = some sp ∧
        sp.index ≠ [] := by
  induction pages with
  | nil => intro st h; exact absurd rfl h
  | cons pp rest ih =>
    intro st _ hsp hf
    obtain ⟨page_no, page⟩ := pp
    simp only [insertLoop]
    split
    · next hfz =>
      rw [hfz] at hf
      simp at hf
    · next n hfs =>
      rw [hfs] at hf
      simp only [List.length_cons] at hf
      cases rest with
      | nil =>
        simp only [insertLoop, insertFrame]
        rw [modifyLast_getLast?]
        cases hl : (bumpTx st.tx).savepoints.getLast? with
        | none =>
          have : st.tx.savepoints = [] := List.getLast?_eq_none_iff.mp hl
          exact absurd this hsp
        | some sp0 =>
          exact ⟨_, rfl, assocInsertSorted_ne_nil page_no st.tx.next_offset sp0.index⟩
      | cons q rest2 =>
        apply ih
        · simp
        · show modifyLast _ (bumpTx st.tx).savepoints ≠ []
          exact modifyLast_ne_nil _ _ hsp
        · show (q :: rest2).length ≤ n
          simp only [List.length_cons] at hf ⊢
          omega

theorem commitPhase_not_ok (sa : Option Nat) (st : InsertSt)
    (h : (commitPhase sa st).1 ≠ .ok) : (commitPhase sa st).2 = st := by
  cases sa with
  | none => exact absurd rfl h
  | some size =>
    simp only [commitPhase] at h ⊢
    cases hl : st.tx.savepoints.getLast? with
    | none => simp [hl]
    | some lastSp =>
      simp only [hl] at h ⊢
      by_cases h1 : st.tx.savepoints.length = 1 ∧ lastSp.index.isEmpty = true
      · rw [if_pos h1] at h
        exact absurd rfl h
      · rw [if_neg h1] at h ⊢
        by_cases h2 : st.tx.savepoints.any (fun s => !s.index.isEmpty) = true
        · rw [if_pos h2] at h ⊢
          cases hfu : st.fuel with
          | zero => rfl
          | succ n =>
            rw [hfu] at h
            exact absurd rfl h
        · rw [if_neg h2] at h
          exact absurd rfl h

theorem commitPhase_commit (size : Nat) (st : InsertSt) (sp : Savepoint)
    (hl : st.tx.savepoints.getLast? = some sp) (hne : sp.index ≠ [])
    (hfu : 1 ≤ st.fuel) :
    (commitPhase (some size) st).1 = .ok ∧
    (commitPhase (some size) st).2.trace =
      st.trace ++ [.headerFileWrite, .mergeIndex, .publishHeader, .markCommitted] := by
  have hie : sp.index.isEmpty = false := by
    cases hx : sp.index with
    | nil => exact absurd hx hne
    | cons a l => rfl
  have h1 : ¬(st.tx.savepoints.length = 1 ∧ sp.index.isEmpty = true) := by
    intro hcon
    rw [hie] at hcon
    exact absurd hcon.2 (by simp)
  have h2 : st.tx.savepoints.any (fun s => !s.index.isEmpty) = true := by
    refine List.any_eq_true.mpr ⟨sp, List.mem_of_mem_getLast? hl, ?_⟩
    simp [hie]
  simp only [commitPhase, hl]
  rw [if_neg h1, if_pos h2]
  cases hfv : st.fuel with
  | zero => omega
  | succ n =>
    refine ⟨rfl, ?_⟩
    simp [markCommitted]

/-- C6: whenever insert_pages fails with an I/O error, at whatever write the
failure struck, the segment's in-memory page map and its published in-memory
header are exactly the ones from before the call, and the transaction's
commit flag is still false: no frames became visible to any reader. -/
theorem c6_insert_pages_io_error_invisible (log : Log) (pages : List (Nat × List Nat))
    (sa : Option Nat) (tx : WriteTx) (lockHolder : Option Nat) (fuel : Nat)
    (h : (Log.insert_pages log pages sa tx lockHolder fuel).1 = .ioError) :
    (Log.insert_pages log pages sa tx lockHolder fuel).2.log.index = log.index ∧
    (Log.insert_pages log pages sa tx lockHolder fuel).2.log.header = log.header ∧
    (Log.insert_pages log pages sa tx lockHolder fuel).2.tx.is_commited = false := by
  unfold Log.insert_pages at h ⊢
  by_cases hs : log.sealed = true
  · rw [if_pos hs] at h
    exact absurd h (by simp)
  rw [if_neg hs] at h ⊢
  by_cases hc : tx.is_commited = true
  · rw [if_pos hc] at h
    exact absurd h (by simp)
  rw [if_neg hc] at h ⊢
  by_cases hlk : lockHolder ≠ some tx.id
  · rw [if_pos hlk] at h
    exact absurd h (by simp)
  rw [if_neg hlk] at h ⊢
  by_cases hsp : tx.savepoints.isEmpty = true
  · rw [if_pos hsp] at h
    exact absurd h (by simp)
  rw [if_neg hsp] at h ⊢
  have hcf : tx.is_commited = false := by
    revert hc
    cases tx.is_commited <;> simp
  have hpres := insertLoop_preserves pages sa { log := log, tx := tx, fuel := fuel, trace := [] }
  by_cases hok : (insertLoop pages sa { log := log, tx := tx, fuel := fuel, trace := [] }).1 = .ok
  · rw [if_pos hok] at h ⊢
    have hstay := commitPhase_not_ok sa
      (insertLoop pages sa { log := log, tx := tx, fuel := fuel, trace := [] }).2
      (by rw [h]; simp)
    rw [hstay]
    exact ⟨hpres.1, hpres.2.1, by rw [hpres.2.2]; exact hcf⟩
  · rw [if_neg hok] at h ⊢
    exact ⟨hpres.1, hpres.2.1, by rw [hpres.2.2]; exact hcf⟩


/-- C1: a committing insert_pages (size_after present, nonempty batch) that
succeeds emits, after the per-frame writes, exactly the file header write,
then the merge of the savepoint indices into the in-memory page map, then
the publication of the in-memory header readers use for visibility, and
then only the transaction-local commit mark: the page map is merged before
the public header is updated, and the public header update is the last
reader-visible step. -/
theorem c1_commit_merges_index_before_header_publish (log : Log)
    (pages : List (Nat × List Nat)) (size : Nat) (tx : WriteTx) (fuel : Nat)
    (h1 : log.sealed = false) (h2 : tx.is_commited = false)
    (h4 : tx.savepoints ≠ []) (h5 : pages ≠ []) (h6 : pages.length < fuel) :
    (Log.insert_pages log pages (some size) tx (some tx.id) fuel).1 = .ok ∧
    ∃ pre,
      (Log.insert_pages log pages (some size) tx (some tx.id) fuel).2.trace =
        pre ++ [.headerFileWrite, .mergeIndex, .publishHeader, .markCommitted] ∧
      ∀ e ∈ pre, ∃ o, e = Ev.frameWrite o := by
  have hspe : tx.savepoints.isEmpty = false := by
    cases hx : tx.savepoints with
    | nil => exact absurd hx h4
    | cons a l => rfl
  unfold Log.insert_pages
  rw [if_neg (by simp [h1]), if_neg (by simp [h2]), if_neg (by simp),
    if_neg (by simp [hspe])]
  have hok := insertLoop_ok pages (some size)
    { log := log, tx := tx, fuel := fuel, trace := [] } (Nat.le_of_lt h6)
  obtain ⟨sp, hsp, hspne⟩ := insertLoop_last_nonempty pages (some size)
    { log := log, tx := tx, fuel := fuel, trace := [] } h5 h4 (Nat.le_of_lt h6)
  rw [if_pos hok.1]
  have hfu1 : 1 ≤ (insertLoop pages (some size)
      { log := log, tx := tx, fuel := fuel, trace := [] }).2.fuel := by
    rw [hok.2.1]
    show 1 ≤ fuel - pages.length
    omega
  have hcommit := commitPhase_commit size
    (insertLoop pages (some size) { log := log, tx := tx, fuel := fuel, trace := [] }).2
    sp hsp hspne hfu1
  obtain ⟨evs, hevs, hall⟩ := hok.2.2
  refine ⟨hcommit.1, evs, ?_, hall⟩
  rw [hcommit.2, hevs]
  show [] ++ evs ++ _ = _
  simp


/-- Witness for C6: with fuel 0 the very first frame write fails; the page
map, the published header and the commit flag are untouched. -/
theorem c6_witness :
    (Log.insert_pages freshLog [(1, zeroPage)] (some 1) freshWtx
        (some freshWtx.id) 0).2.log.index = freshLog.index ∧
    (Log.insert_pages freshLog [(1, zeroPage)] (some 1) freshWtx
        (some freshWtx.id) 0).2.log.header = freshLog.header ∧
    (Log.insert_pages freshLog [(1, zeroPage)] (some 1) freshWtx
        (some freshWtx.id) 0).2.tx.is_commited = false :=
  c6_insert_pages_io_error_invisible freshLog [(1, zeroPage)] (some 1) freshWtx
    (some freshWtx.id) 0 rfl

/-- Witness for C1: a one-page committing insert with enough fuel succeeds
and its trace is the frame write followed by the file header write, the
index merge, and last the header publication. -/
theorem c1_witness :
    (Log.insert_pages freshLog [(1, zeroPage)] (some 1) freshWtx
        (some freshWtx.id) 2).1 = .ok ∧
    ∃ pre,
      (Log.insert_pages freshLog [(1, zeroPage)] (some 1) freshWtx
          (some freshWtx.id) 2).2.trace =
        pre ++ [.headerFileWrite, .mergeIndex, .publishHeader, .markCommitted] ∧
      ∀ e ∈ pre, ∃ o, e = Ev.frameWrite o :=
  c1_commit_merges_index_before_header_publish freshLog [(1, zeroPage)] 1 freshWtx 2
    rfl rfl (by decide) (by simp) (by decide)

theorem sorted_le_getLast? :
    ∀ (l : List Nat), l.Sorted (· ≤ ·) → ∀ v, l.getLast? = some v → ∀ o ∈ l, o ≤ v := by
  intro l
  induction l with
  | nil => intro _ v hv; simp at hv
  | cons a rest ih =>
    intro hs v hv o ho
    rw [List.sorted_cons] at hs
    cases hr : rest with
    | nil =>
      subst hr
      simp at hv ho
      omega
    | cons b rest2 =>
      subst hr
      rw [getLast?_cons_ne a _ (by simp)] at hv
      rcases List.mem_cons.mp ho with h1 | h1
      · subst h1
        exact hs.1 v (List.mem_of_mem_getLast? hv)
      · exact ih hs.2 v hv o h1

theorem mapM_getLast_mem :
    ∀ (l : List (Nat × List Nat)) (blob : List (Nat × Nat)),
      l.mapM (fun kv => kv.2.getLast?.map (fun off => (kv.1, off))) = some blob →
      ∀ p v, (p, v) ∈ blob → ∃ offs, (p, offs) ∈ l ∧ offs.getLast? = some v := by
  intro l
  induction l with
  | nil =>
    intro blob h p v hpv
    simp only [List.mapM_nil, pure, Option.some.injEq] at h
    subst h
    simp at hpv
  | cons kv rest ih =>
    intro blob h p v hpv
    rw [List.mapM_cons] at h
    cases hk : kv.2.getLast? with
    | none => rw [hk] at h; simp at h
    | some off =>
      rw [hk] at h
      cases hrest : rest.mapM (fun kv => kv.2.getLast?.map (fun off => (kv.1, off))) with
      | none => rw [hrest] at h; simp at h
      | some ys =>
        rw [hrest] at h
        simp at h
        subst h
        rcases List.mem_cons.mp hpv with h1 | h1
        · have hp : p = kv.1 ∧ v = off := by
            have := h1
            simp at this
            exact this
          refine ⟨kv.2, ?_, ?_⟩
          · rw [hp.1]
            exact List.mem_cons_self _ _
          · rw [hk, hp.2]
        · obtain ⟨offs, hm, hlast⟩ := ih ys hrest p v h1
          exact ⟨offs, List.mem_cons_of_mem _ hm, hlast⟩


/-- C9 counterexample: in a sealed segment whose page 5 was written at
slots 0 (frame 1) and 1 (frame 2), the on-disk index stores the value 1 --
just the slot offset -- while the claimed encoding
(frame_no_delta << 32) | offset for the highest frame writing the page is
(1 << 32) | 1: the stored value differs from the claimed one, so the claim
as stated is false (merge_all inserts the offset alone). -/
theorem c9_counterexample :
    (Log.seal c9Log 1).1 = .ok ∧
    assocLookup 5 c9Sealed.index = some 1 ∧
    specIndexValue c9Sealed.header.start_frame_no c9Sealed.frames 5 = some (2 ^ 32 + 1) ∧
    assocLookup 5 c9Sealed.index ≠
      specIndexValue c9Sealed.header.start_frame_no c9Sealed.frames 5 := by
  refine ⟨rfl, rfl, by decide, by decide⟩

/-- C9 as amended: for every page in the serialized segment index, the
stored 64-bit value is exactly the slot offset of the last (greatest, hence
highest-frame) recorded entry for that page, with the frame_no_delta half of
the encoding always zero: index_entry_split recovers (0, offset). -/
theorem c9_amended_value_is_offset (li : LogIndex) (blob : List (Nat × Nat))
    (h : li.merge_all = some blob) (p v : Nat) (hpv : (p, v) ∈ blob)
    (hsort : ∀ q offs, (q, offs) ∈ li.index → offs.Sorted (· ≤ ·))
    (h32 : v < 2 ^ 32) :
    index_entry_split v = (0, v) ∧
    ∃ offs, (p, offs) ∈ li.index ∧ offs.getLast? = some v ∧ ∀ o ∈ offs, o ≤ v := by
  constructor
  · rw [index_entry_split]
    rw [Nat.div_eq_of_lt h32, Nat.mod_eq_of_lt h32]
    simp
  · obtain ⟨offs, hm, hlast⟩ := mapM_getLast_mem li.index blob h p v hpv
    exact ⟨offs, hm, hlast, sorted_le_getLast? offs (hsort p offs hm) v hlast⟩

/-- Witness for the amended C9 on the two-write segment. -/
theorem c9_amended_witness :
    index_entry_split 1 = (0, 1) ∧
    ∃ offs, (5, offs) ∈ c9Log.index.index ∧ offs.getLast? = some 1 ∧ ∀ o ∈ offs, o ≤ 1 :=
  c9_amended_value_is_offset c9Log.index [(5, 1)] rfl 5 1 (by simp)
    (by
      intro q offs hm
      simp [c9Log] at hm
      rw [hm.2]
      decide)
    (by decide)

theorem get_after_takeWhile {α : Type} (p : α → Bool) :
    ∀ (l : List α) (x : α), l.get? (l.takeWhile p).length = some x → p x = false := by
  intro l
  induction l with
  | nil => intro x h; simp at h
  | cons a rest ih =>
    intro x h
    by_cases hp : p a = true
    · rw [List.takeWhile_cons_of_pos hp] at h
      simp only [List.length_cons, List.get?_cons_succ] at h
      exact ih x h
    · rw [List.takeWhile_cons_of_neg hp] at h
      simp only [List.length_nil, List.get?_cons_zero, Option.some.injEq] at h
      rw [← h]
      cases hpa : p a with
      | false => rfl
      | true => exact absurd hpa hp

theorem mem_unionKeys {indexes : List (List (Nat × Nat))} {p : Nat} :
    p ∈ unionKeys indexes ↔ ∃ ix ∈ indexes, ∃ v, (p, v) ∈ ix := by
  unfold unionKeys
  rw [List.mem_dedup, List.mem_flatMap]
  constructor
  · rintro ⟨ix, hix, hp⟩
    obtain ⟨⟨a, b⟩, hab, hfst⟩ := List.mem_map.mp hp
    subst hfst
    exact ⟨ix, hix, b, hab⟩
  · rintro ⟨ix, hix, v, hv⟩
    exact ⟨ix, hix, List.mem_map.mpr ⟨(p, v), hv, rfl⟩⟩

theorem collectSegs_append (p : Nat) :
    ∀ (l1 l2 : List SealedLog),
      collectSegs p (l1 ++ l2) = collectSegs p l1 ++ collectSegs p l2 := by
  intro l1 l2
  induction l1 with
  | nil => rfl
  | cons s rest ih =>
    cases hs : assocLookup p s.index with
    | none =>
      simp only [List.cons_append, collectSegs, hs]
      exact ih
    | some v =>
      simp only [List.cons_append, collectSegs, hs]
      exact congrArg (List.cons (s, v)) ih

theorem collectSegs_eq_nil (p : Nat) :
    ∀ l : List SealedLog,
      collectSegs p l = [] ↔ ∀ s ∈ l, assocLookup p s.index = none := by
  intro l
  induction l with
  | nil => simp [collectSegs]
  | cons s rest ih =>
    cases hs : assocLookup p s.index with
    | none =>
      simp only [collectSegs, hs]
      rw [ih]
      constructor
      · intro h t ht
        rcases List.mem_cons.mp ht with h1 | h1
        · rw [h1]; exact hs
        · exact h t h1
      · intro h t ht
        exact h t (List.mem_cons_of_mem _ ht)
    | some v =>
      simp only [collectSegs, hs]
      constructor
      · intro h; simp at h
      · intro h
        have := h s (List.mem_cons_self _ _)
        rw [hs] at this
        simp at this

theorem collectSegs_getLast (p : Nat) :
    ∀ l : List SealedLog,
      (collectSegs p l).getLast? =
        (l.reverse.find? (fun s => (assocLookup p s.index).isSome)).bind
          (fun s => (assocLookup p s.index).map (fun v => (s, v))) := by
  intro l
  induction l using List.reverseRecOn with
  | nil => rfl
  | append_singleton l x ih =>
    rw [collectSegs_append, List.reverse_append]
    simp only [List.reverse_cons, List.reverse_nil, List.nil_append, List.singleton_append]
    cases hx : assocLookup p x.index with
    | some v =>
      rw [List.find?_cons_of_pos _ (by simp [hx])]
      rw [show collectSegs p [x] = [(x, v)] by simp [collectSegs, hx]]
      rw [List.getLast?_concat]
      simp [hx]
    | none =>
      rw [List.find?_cons_of_neg _ (by simp [hx])]
      rw [show collectSegs p [x] = [] by simp [collectSegs, hx]]
      rw [List.append_nil]
      exact ih

theorem mapM_eq_map_of_forall {α β : Type} (f : α → Option β) (g : α → β) :
    ∀ l : List α, (∀ a ∈ l, f a = some (g a)) → l.mapM f = some (l.map g) := by
  intro l
  induction l with
  | nil => intro _; rfl
  | cons a rest ih =>
    intro h
    rw [List.mapM_cons, h a (List.mem_cons_self _ _),
      ih (fun b hb => h b (List.mem_cons_of_mem _ hb))]
    rfl


theorem checkpointWrite_spec (pfx : List SealedLog)
    (hwf : ∀ s ∈ pfx, ∀ kv ∈ s.index,
      (assocLookup (index_entry_split kv.2).2 s.frames).isSome = true)
    (p : Nat) (hp : p ∈ unionKeys (pfx.map (fun s => s.index))) :
    checkpointWrite pfx p = some ((p - 1) * 4096, specImage pfx p) := by
  obtain ⟨ix, hix, v0, hv0⟩ := mem_unionKeys.mp hp
  obtain ⟨s0, hs0, hmap⟩ := List.mem_map.mp hix
  have hv0' : (p, v0) ∈ s0.index := by rw [hmap]; exact hv0
  have hsome0 : (assocLookup p s0.index).isSome = true := assocLookup_isSome_of_mem hv0'
  have hne : collectSegs p pfx ≠ [] := by
    intro hnil
    have := (collectSegs_eq_nil p pfx).mp hnil s0 hs0
    rw [this] at hsome0
    simp at hsome0
  cases hgl : (collectSegs p pfx).getLast? with
  | none => exact absurd (List.getLast?_eq_none_iff.mp hgl) hne
  | some sv =>
    have hchar := collectSegs_getLast p pfx
    rw [hgl] at hchar
    cases hf : pfx.reverse.find? (fun s => (assocLookup p s.index).isSome) with
    | none =>
      rw [hf] at hchar
      simp at hchar
    | some seg =>
      rw [hf] at hchar
      replace hchar : some sv = Option.map (fun v => (seg, v)) (assocLookup p seg.index) :=
        hchar
      cases hlk : assocLookup p seg.index with
      | none =>
        rw [hlk] at hchar
        simp at hchar
      | some v =>
        rw [hlk] at hchar
        simp at hchar
        have hsegmem : seg ∈ pfx := List.mem_reverse.mp (List.mem_of_find?_eq_some hf)
        have hwfseg := hwf seg hsegmem (p, v) (assocLookup_mem hlk)
        cases hro : seg.read_offset (index_entry_split v).2 with
        | none =>
          rw [SealedLog.read_offset] at hro
          cases hfr : assocLookup (index_entry_split v).2 seg.frames with
          | none =>
            rw [hfr] at hwfseg
            simp at hwfseg
          | some fr =>
            rw [hfr] at hro
            simp at hro
        | some buf =>
          rw [checkpointWrite, hgl, hchar]
          simp only [hro]
          simp [specImage, newestContaining, hf, hlk, hro]

/-- C4: checkpoint consumes exactly the maximal oldest-first run of the
sealed queue whose read-lock counts are all zero (every consumed segment has
count zero and the first survivor, if any, has a nonzero count; the queue
keeps exactly the remainder), and its base-file writes are precisely, for
every page number in the union of the consumed indices, the page image from
the newest consumed segment containing that page (ties impossible; higher
queue index wins), written at byte offset (page_no - 1) * 4096. The
well-formedness hypothesis says every index entry points at an existing
frame slot of its segment. -/
theorem c4_checkpoint_prefix_newest_wins (segs : List SealedLog)
    (hwf : ∀ s ∈ segs.takeWhile (fun s => s.read_locks == 0), ∀ kv ∈ s.index,
      (assocLookup (index_entry_split kv.2).2 s.frames).isSome = true) :
    ∃ res, checkpoint segs = some res ∧
      res.segs = segs.drop (segs.takeWhile (fun s => s.read_locks == 0)).length ∧
      (∀ s ∈ segs.takeWhile (fun s => s.read_locks == 0), s.read_locks = 0) ∧
      (∀ s', segs.get? (segs.takeWhile (fun s => s.read_locks == 0)).length = some s' →
        s'.read_locks ≠ 0) ∧
      res.writes = specWrites (segs.takeWhile (fun s => s.read_locks == 0)) := by
  have hlocks : ∀ s ∈ segs.takeWhile (fun s => s.read_locks == 0), s.read_locks = 0 := by
    intro s hs
    have := List.mem_takeWhile_imp hs
    simpa using this
  have hmax : ∀ s', segs.get? (segs.takeWhile (fun s => s.read_locks == 0)).length = some s' →
      s'.read_locks ≠ 0 := by
    intro s' hs' h0
    have hfalse := get_after_takeWhile _ segs s' hs'
    rw [h0] at hfalse
    simp at hfalse
  by_cases hemp : (segs.takeWhile (fun s => s.read_locks == 0)).isEmpty = true
  · have hnil : segs.takeWhile (fun s => s.read_locks == 0) = [] := by
      cases hx : segs.takeWhile (fun s => s.read_locks == 0) with
      | nil => rfl
      | cons a l =>
        rw [hx] at hemp
        simp at hemp
    refine ⟨{ writes := [], segs := segs, fsynced := false }, ?_, ?_, hlocks, hmax, ?_⟩
    · unfold checkpoint
      rw [if_pos hemp]
    · rw [hnil]
      rfl
    · rw [hnil]
      rfl
  · have hmapm := mapM_eq_map_of_forall (fun p => checkpointWrite
        (segs.takeWhile (fun s => s.read_locks == 0)) p)
      (fun p => ((p - 1) * 4096, specImage (segs.takeWhile (fun s => s.read_locks == 0)) p))
      (unionKeys ((segs.takeWhile (fun s => s.read_locks == 0)).map (fun s => s.index)))
      (fun p hp => checkpointWrite_spec _ hwf p hp)
    refine ⟨{ writes := specWrites (segs.takeWhile (fun s => s.read_locks == 0)),
              segs := segs.drop (segs.takeWhile (fun s => s.read_locks == 0)).length,
              fsynced := true }, ?_, rfl, hlocks, hmax, rfl⟩
    unfold checkpoint
    rw [if_neg hemp, hmapm]
    rfl


/-- Witness for C4: queue [A, B, C] where A and B are reader-free and C is
pinned; the checkpoint consumes exactly [A, B], writes page 7 from B (the
newer) and page 9 from B, and leaves [C]. -/
theorem c4_witness :
    ∃ res, checkpoint [c4SegA, c4SegB, c4SegC] = some res ∧
      res.segs = [c4SegA, c4SegB, c4SegC].drop
        ([c4SegA, c4SegB, c4SegC].takeWhile (fun s => s.read_locks == 0)).length ∧
      (∀ s ∈ [c4SegA, c4SegB, c4SegC].takeWhile (fun s => s.read_locks == 0),
        s.read_locks = 0) ∧
      (∀ s', [c4SegA, c4SegB, c4SegC].get?
          ([c4SegA, c4SegB, c4SegC].takeWhile (fun s => s.read_locks == 0)).length =
            some s' → s'.read_locks ≠ 0) ∧
      res.writes = specWrites
        ([c4SegA, c4SegB, c4SegC].takeWhile (fun s => s.read_locks == 0)) :=
  c4_checkpoint_prefix_newest_wins [c4SegA, c4SegB, c4SegC] (by decide)

end LibsqlWal
